import Mathlib

/-!
Verification development for the grainlify escrow / settlement core.

The Go sources under `backend/internal/soroban` and `backend/internal/auth`
are embedded shallowly as pure Lean functions; the on-ledger program-escrow
contract (whose Rust source is not part of the snapshot) is modelled from the
specification.  Machine integers are `Nat`/`Int` with explicit bounds where
the source checks them; fallible code returns `Option`/`Except`; external
network behaviour is passed in as explicit outcome streams.
-/

deriving instance DecidableEq for Except

/-! ## Program escrow contract (spec §4.2) -/

/-- Largest value of a 128-bit signed integer (Soroban `i128`). -/
def i128Max : Int := 2 ^ 127 - 1

/-- Modelled from the spec: `ProgramEscrowRecord` of §3.  The Rust source of
the program-escrow contract is absent from the snapshot (only its docs and
test scripts are present), so the record follows the spec's data model. -/
structure ProgramEscrowData where
  program_id : String
  total_funds : Int
  remaining_balance : Int
  authorized_payout_key : String
  token_address : String
deriving Repr, DecidableEq

/-- Modelled from the spec: the operations of §4.2 that mutate the program
escrow record, each tagged with the caller where authorization matters. -/
inductive ProgOp
  | init_program (program_id authorized_payout_key token_address : String)
  | lock_program_funds (amount : Int)
  | single_payout (caller recipient : String) (amount : Int)
  | batch_payout (caller : String) (recipients : List String) (amounts : List Int)
  | refund (caller initiator : String)
deriving Repr, DecidableEq

/-- Modelled from the spec: one accepted or rejected state transition of §4.2.
`none` is the rejected case (validation, authorization or overflow failure);
the state is `Option ProgramEscrowData`, `none` meaning uninitialized.
Arithmetic overflow of `i128` is a fatal error per §4.2's numeric semantics. -/
def applyProgOp (st : Option ProgramEscrowData) : ProgOp → Option (Option ProgramEscrowData)
  | .init_program pid key tok =>
      match st with
      | some _ => none
      | none => some (some ⟨pid, 0, 0, key, tok⟩)
  | .lock_program_funds amount =>
      match st with
      | none => none
      | some d =>
          if amount ≤ 0 then none
          else if d.total_funds + amount > i128Max then none
          else if d.remaining_balance + amount > i128Max then none
          else some (some { d with total_funds := d.total_funds + amount,
                                   remaining_balance := d.remaining_balance + amount })
  | .single_payout caller _recipient amount =>
      match st with
      | none => none
      | some d =>
          if caller ≠ d.authorized_payout_key then none
          else if amount ≤ 0 then none
          else if amount > d.remaining_balance then none
          else some (some { d with remaining_balance := d.remaining_balance - amount })
  | .batch_payout caller recipients amounts =>
      match st with
      | none => none
      | some d =>
          if caller ≠ d.authorized_payout_key then none
          else if recipients.length ≠ amounts.length then none
          else if recipients.isEmpty then none
          else if amounts.sum > d.remaining_balance then none
          else some (some { d with remaining_balance := d.remaining_balance - amounts.sum })
  | .refund caller _initiator =>
      match st with
      | none => none
      | some d =>
          if caller ≠ d.authorized_payout_key then none
          else some (some { d with remaining_balance := 0 })

/-- Runs a sequence of program-escrow operations; the run is defined only
when every operation in it is accepted. -/
def runProg (st : Option ProgramEscrowData) : List ProgOp → Option (Option ProgramEscrowData)
  | [] => some st
  | op :: ops =>
      match applyProgOp st op with
      | none => none
      | some st' => runProg st' ops

/-- The balance invariant claimed for the program escrow record. -/
def progInv : Option ProgramEscrowData → Bool
  | none => true
  | some d => decide (0 ≤ d.remaining_balance) && decide (d.remaining_balance ≤ d.total_funds)

/-- Batches whose every amount is nonnegative. -/
def batchAmountsOk : ProgOp → Bool
  | .batch_payout _ _ amounts => amounts.all (fun a => decide (0 ≤ a))
  | _ => true

theorem progInv_true_iff (st : Option ProgramEscrowData) :
    progInv st = true ↔
      ∀ d, st = some d → 0 ≤ d.remaining_balance ∧ d.remaining_balance ≤ d.total_funds := by
  cases st with
  | none => simp [progInv]
  | some d => simp [progInv]

theorem applyProgOp_preserves (st st' : Option ProgramEscrowData) (op : ProgOp)
    (hok : batchAmountsOk op = true)
    (hinv : progInv st = true)
    (h : applyProgOp st op = some st') : progInv st' = true := by
  cases op with
  | init_program pid key tok =>
      cases st with
      | none => simp [applyProgOp] at h; simp [← h, progInv]
      | some d => simp [applyProgOp] at h
  | lock_program_funds amount =>
      cases st with
      | none => simp [applyProgOp] at h
      | some d =>
          simp [applyProgOp] at h
          obtain ⟨h1, h2, h3, h4⟩ := h
          simp [progInv] at hinv
          simp [← h4, progInv]
          omega
  | single_payout caller recipient amount =>
      cases st with
      | none => simp [applyProgOp] at h
      | some d =>
          simp [applyProgOp] at h
          obtain ⟨h1, h2, h3, h4⟩ := h
          simp [progInv] at hinv
          simp [← h4, progInv]
          omega
  | batch_payout caller recipients amounts =>
      cases st with
      | none => simp [applyProgOp] at h
      | some d =>
          simp [applyProgOp] at h
          obtain ⟨h1, h2, h3, h4, h5⟩ := h
          simp [progInv] at hinv
          simp [← h5, progInv]
          have hsum : 0 ≤ amounts.sum := by
            apply List.sum_nonneg
            intro a ha
            simp [batchAmountsOk] at hok
            exact hok a ha
          omega
  | refund caller initiator =>
      cases st with
      | none => simp [applyProgOp] at h
      | some d =>
          simp [applyProgOp] at h
          obtain ⟨h1, h2⟩ := h
          simp [progInv] at hinv
          simp [← h2, progInv]
          omega

theorem runProg_preserves (ops : List ProgOp) : ∀ st st' : Option ProgramEscrowData,
    (∀ op ∈ ops, batchAmountsOk op = true) →
    progInv st = true →
    runProg st ops = some st' → progInv st' = true := by
  induction ops with
  | nil =>
      intro st st' _ hinv h
      simp [runProg] at h
      simpa [← h] using hinv
  | cons op ops ih =>
      intro st st' hok hinv h
      simp only [runProg] at h
      cases happ : applyProgOp st op with
      | none => rw [happ] at h; exact absurd h (by simp)
      | some st1 =>
          rw [happ] at h
          have h1 : batchAmountsOk op = true := hok op (by simp)
          have h2 : ∀ o ∈ ops, batchAmountsOk o = true := fun o ho => hok o (by simp [ho])
          exact ih st1 st' h2 (applyProgOp_preserves st st1 op h1 hinv happ) h

/-- C1 fails as stated: §4.2's `batch_payout` validates only array lengths,
non-emptiness and that the SUM of the amounts does not exceed the remaining
balance, so a batch with a negative amount is accepted and pushes
`remaining_balance` above `total_funds`.  Concretely, after `init_program`
a batch payout of `[-1]` is accepted and leaves the record with
`remaining_balance = 1 > 0 = total_funds`. -/
theorem C1_counterexample :
    runProg none
      [ProgOp.init_program "p" "k" "t", ProgOp.batch_payout "k" ["r"] [-1]] =
      some (some ⟨"p", 0, 1, "k", "t"⟩) ∧
    progInv (some ⟨"p", 0, 1, "k", "t"⟩) = false := by
  constructor
  · rfl
  · rfl

/-- C1 (amended): across every sequence of accepted `init_program`,
`lock_program_funds`, `single_payout`, `batch_payout` and `refund` operations
in which every `batch_payout` amount is nonnegative, the stored
`remaining_balance` is never negative and never exceeds `total_funds`. -/
theorem C1_invariant (ops : List ProgOp) (d : ProgramEscrowData)
    (hok : ∀ op ∈ ops, batchAmountsOk op = true)
    (h : runProg none ops = some (some d)) :
    0 ≤ d.remaining_balance ∧ d.remaining_balance ≤ d.total_funds := by
  have := runProg_preserves ops none (some d) hok (by simp [progInv]) h
  simpa [progInv] using this

set_option maxRecDepth 8000 in
/-- Witness for `C1_invariant` on a concrete accepted sequence. -/
theorem C1_invariant_witness :
    0 ≤ (⟨"p", 1000, 0, "k", "t"⟩ : ProgramEscrowData).remaining_balance ∧
    (⟨"p", 1000, 0, "k", "t"⟩ : ProgramEscrowData).remaining_balance ≤
      (⟨"p", 1000, 0, "k", "t"⟩ : ProgramEscrowData).total_funds :=
  C1_invariant
    [ProgOp.init_program "p" "k" "t",
     ProgOp.lock_program_funds 1000,
     ProgOp.single_payout "k" "r" 300,
     ProgOp.batch_payout "k" ["a", "b"] [100, 200],
     ProgOp.refund "k" "init"]
    ⟨"p", 1000, 0, "k", "t"⟩ (by decide) (by decide)

/-! ## Transaction builder: submission with retry (`tx.go`) -/

/-- `TransactionResult` of the off-chain pipeline (`tx.go`); the wall-clock
`Submitted`/`Confirmed` timestamps are omitted from the shallow embedding. -/
structure TransactionResult where
  hash : String
  ledger : Nat
  status : String
deriving Repr, DecidableEq

/-- `RetryConfig` as consumed by `submitWithRetry` in `tx.go`.  Durations are
nanoseconds (Go `time.Duration`).  `backoffMultiplier` is a `float64` in Go;
it is modelled as a natural number, which is exact for the configured value
2.0 because every delay stays below `MaxDelay ≤ 2^53` ns, where `float64`
products with 2.0 are computed exactly. -/
structure RetryConfig where
  maxRetries : Nat
  initialDelay : Nat
  maxDelay : Nat
  backoffMultiplier : Nat
deriving Repr, DecidableEq

/-- Modelled from the spec: `DefaultRetryConfig` is not part of the snapshot;
its values (MaxRetries 3, InitialDelay 1s, MaxDelay 30s, multiplier 2.0) are
fixed by §4.4 and by `TestDefaultRetryConfig`. -/
def DefaultRetryConfig : RetryConfig :=
  ⟨3, 1000000000, 30000000000, 2⟩

/-- One outcome of `horizonClient.SubmitTransaction`: success with the
response's hash and ledger, a `horizonclient.Error` whose
`Problem.Extras["result_codes"]["transaction"]` field (when present and a
string) is carried as the optional code, or any other error. -/
inductive SubmitOutcome
  | success (hash : String) (ledger : Nat)
  | horizonError (txResultCode : Option String)
  | otherError (msg : String)
deriving Repr, DecidableEq

/-- The fixed fatal set of `isNonRetryableError` in `tx.go`. -/
def nonRetryableCodes : List String :=
  ["tx_bad_auth", "tx_bad_seq", "tx_insufficient_balance", "tx_no_source_account"]

/-- `isNonRetryableError` from `tx.go`, over the extracted transaction result
code (absent when the extras lack a string `result_codes.transaction`). -/
def isNonRetryableError (txResultCode : Option String) : Bool :=
  match txResultCode with
  | some code => nonRetryableCodes.contains code
  | none => false

/-- The error cases `submitWithRetry` can return. -/
inductive SubmitError
  | nonRetryable (outcome : SubmitOutcome)
  | exhausted (attempts : Nat) (last : Option SubmitOutcome)
  | ctxCancelled
deriving Repr, DecidableEq

/-- Result of `submitWithRetry`. -/
inductive SubmitResult
  | ok (res : TransactionResult)
  | err (e : SubmitError)
deriving Repr, DecidableEq

/-- One full run of `submitWithRetry`: how many `SubmitTransaction` calls were
made, which delays were slept (in order, nanoseconds), and the returned
value. -/
structure SubmitRun where
  attempts : Nat
  delays : List Nat
  result : SubmitResult
deriving Repr, DecidableEq

/-- The loop body of `submitWithRetry` (`tx.go` lines 70–133).  `attempt` is
the Go loop counter, `delay` the current backoff delay, `fuel` the number of
iterations left (`MaxRetries + 1 - attempt`), `lastErr` the last submission
error.  On an iteration with `attempt > 0` the context is checked first; if
live, the current delay is slept and then grown by the multiplier and capped
at `maxDelay`, exactly as in the source. -/
def submitStep (cfg : RetryConfig) (submit : Nat → SubmitOutcome) (ctxDone : Nat → Bool) :
    Nat → Nat → Nat → Option SubmitOutcome → SubmitRun
  | 0, _, _, lastErr => ⟨0, [], .err (.exhausted (cfg.maxRetries + 1) lastErr)⟩
  | fuel + 1, attempt, delay, _lastErr =>
      let core : Nat → List Nat → SubmitRun := fun nextDelay sleeps =>
        match submit attempt with
        | .success h l => ⟨1, sleeps, .ok ⟨h, l, "pending"⟩⟩
        | .horizonError code =>
            if isNonRetryableError code then
              ⟨1, sleeps, .err (.nonRetryable (.horizonError code))⟩
            else
              let rest := submitStep cfg submit ctxDone fuel (attempt + 1) nextDelay
                (some (.horizonError code))
              ⟨1 + rest.attempts, sleeps ++ rest.delays, rest.result⟩
        | .otherError m =>
            let rest := submitStep cfg submit ctxDone fuel (attempt + 1) nextDelay
              (some (.otherError m))
            ⟨1 + rest.attempts, sleeps ++ rest.delays, rest.result⟩
      if attempt = 0 then core delay []
      else if ctxDone attempt then ⟨0, [], .err .ctxCancelled⟩
      else
        let grown := delay * cfg.backoffMultiplier
        core (if grown > cfg.maxDelay then cfg.maxDelay else grown) [delay]

/-- `submitWithRetry` from `tx.go`: the loop runs for attempts
`0 .. MaxRetries`, starting from `InitialDelay`. -/
def submitWithRetry (cfg : RetryConfig) (submit : Nat → SubmitOutcome)
    (ctxDone : Nat → Bool) : SubmitRun :=
  submitStep cfg submit ctxDone (cfg.maxRetries + 1) 0 cfg.initialDelay none

/-- C2: a first submission attempt failing with a Horizon error whose
transaction result code is in the fatal set is returned immediately as a
non-retryable error: the run makes exactly one submission attempt and sleeps
no delay, regardless of the retry configuration or of later outcomes. -/
theorem C2_fatal_not_retried (cfg : RetryConfig) (submit : Nat → SubmitOutcome)
    (ctxDone : Nat → Bool) (code : String)
    (hsub : submit 0 = .horizonError (some code))
    (hfatal : code ∈ nonRetryableCodes) :
    submitWithRetry cfg submit ctxDone =
      ⟨1, [], .err (.nonRetryable (.horizonError (some code)))⟩ := by
  have hb : isNonRetryableError (some code) = true := by
    simp [isNonRetryableError, hfatal]
  unfold submitWithRetry submitStep
  simp [hsub, hb]

/-- Witness for `C2_fatal_not_retried`: a `tx_bad_seq` failure on the first
attempt under the default configuration. -/
theorem C2_fatal_not_retried_witness :
    submitWithRetry DefaultRetryConfig (fun _ => .horizonError (some "tx_bad_seq"))
        (fun _ => false) =
      ⟨1, [], .err (.nonRetryable (.horizonError (some "tx_bad_seq")))⟩ :=
  C2_fatal_not_retried DefaultRetryConfig _ _ "tx_bad_seq" rfl (by decide)

/-- Outcomes that `submitWithRetry` retries: any non-Horizon error, and any
Horizon error whose code is outside the fatal set. -/
def retryableOutcome : SubmitOutcome → Bool
  | .success _ _ => false
  | .horizonError code => !isNonRetryableError code
  | .otherError _ => true

/-- The backoff delay after `n` growth steps from `d`: grow by `mult`, cap at
`maxDelay`, exactly as at the top of each retry iteration. -/
def delayIter (mult maxDelay d : Nat) : Nat → Nat
  | 0 => d
  | n + 1 =>
      let grown := delayIter mult maxDelay d n * mult
      if grown > maxDelay then maxDelay else grown

theorem delayIter_shift (mult maxDelay d : Nat) (n : Nat) :
    delayIter mult maxDelay
        (if d * mult > maxDelay then maxDelay else d * mult) n =
      delayIter mult maxDelay d (n + 1) := by
  induction n with
  | zero => simp [delayIter]
  | succ n ih => simp [delayIter, ih]

theorem delayIter_closed_form (maxDelay d : Nat) (hd : d ≤ maxDelay) (n : Nat) :
    delayIter 2 maxDelay d n = min (d * 2 ^ n) maxDelay := by
  induction n with
  | zero => simp [delayIter]; omega
  | succ n ih =>
      simp only [delayIter, ih]
      have hpow : d * 2 ^ (n + 1) = d * 2 ^ n * 2 := by ring
      rw [hpow]
      generalize d * 2 ^ n = c
      split <;> omega

theorem submitStep_all_retryable (cfg : RetryConfig) (submit : Nat → SubmitOutcome)
    (ctxDone : Nat → Bool)
    (hr : ∀ k, retryableOutcome (submit k) = true)
    (hc : ∀ k, ctxDone k = false) :
    ∀ fuel attempt delay lastErr, 1 ≤ attempt →
      submitStep cfg submit ctxDone fuel attempt delay lastErr =
        ⟨fuel,
         (List.range fuel).map
           (delayIter cfg.backoffMultiplier cfg.maxDelay delay),
         .err (.exhausted (cfg.maxRetries + 1)
           (if fuel = 0 then lastErr else some (submit (attempt + fuel - 1))))⟩ := by
  intro fuel
  induction fuel with
  | zero => intro attempt delay lastErr _; simp [submitStep]
  | succ fuel ih =>
      intro attempt delay lastErr hatt
      have ha0 : ¬ attempt = 0 := by omega
      rw [submitStep]
      rw [if_neg ha0, hc attempt]
      simp only [Bool.false_eq_true, if_false]
      have hrest := ih (attempt + 1)
        (if delay * cfg.backoffMultiplier > cfg.maxDelay then cfg.maxDelay
         else delay * cfg.backoffMultiplier)
        (some (submit attempt)) (by omega)
      have hdelays :
          delay :: (List.range fuel).map
              (delayIter cfg.backoffMultiplier cfg.maxDelay
                (if delay * cfg.backoffMultiplier > cfg.maxDelay then cfg.maxDelay
                 else delay * cfg.backoffMultiplier)) =
            (List.range (fuel + 1)).map
              (delayIter cfg.backoffMultiplier cfg.maxDelay delay) := by
        rw [List.range_succ_eq_map, List.map_cons, List.map_map]
        congr 1
        apply List.map_congr_left
        intro n _
        simp only [Function.comp_apply]
        exact delayIter_shift cfg.backoffMultiplier cfg.maxDelay delay n
      have hlast :
          (if fuel = 0 then some (submit attempt)
           else some (submit (attempt + 1 + fuel - 1))) =
            (if fuel + 1 = 0 then lastErr else some (submit (attempt + (fuel + 1) - 1))) := by
        by_cases h2 : fuel = 0
        · subst h2; simp
        · simp only [h2, if_false, Nat.succ_ne_zero]
          have : attempt + 1 + fuel - 1 = attempt + (fuel + 1) - 1 := by omega
          rw [this]
      cases hs : submit attempt with
      | success h l =>
          have := hr attempt
          rw [hs] at this
          simp [retryableOutcome] at this
      | horizonError code =>
          have hret := hr attempt
          rw [hs] at hret
          simp [retryableOutcome] at hret
          dsimp only
          rw [hret]
          simp only [Bool.false_eq_true, if_false]
          rw [hs] at hrest
          rw [hrest]
          simp only [SubmitRun.mk.injEq]
          refine ⟨by omega, ?_, ?_⟩
          · simpa using hdelays
          · rw [← hs]
            rw [hlast]
      | otherError m =>
          dsimp only
          rw [hs] at hrest
          rw [hrest]
          simp only [SubmitRun.mk.injEq]
          refine ⟨by omega, ?_, ?_⟩
          · simpa using hdelays
          · rw [← hs]
            rw [hlast]

/-- C3: when every submission outcome is a retryable failure and the context
stays live, `submitWithRetry` makes exactly `MaxRetries + 1` attempts; the
delay slept before retry `k` (1-based, listed in order) is
`min (InitialDelay * 2 ^ (k - 1), MaxDelay)`, and the returned error wraps
the last submission error together with the total attempt count.  Stated for
any configuration with the spec's multiplier 2.0 and `InitialDelay ≤
MaxDelay`, which the defaults (3 retries, 1s, 30s) satisfy. -/
theorem C3_retry_backoff (cfg : RetryConfig) (submit : Nat → SubmitOutcome)
    (ctxDone : Nat → Bool)
    (hmult : cfg.backoffMultiplier = 2)
    (hinit : cfg.initialDelay ≤ cfg.maxDelay)
    (hr : ∀ k, retryableOutcome (submit k) = true)
    (hc : ∀ k, ctxDone k = false) :
    submitWithRetry cfg submit ctxDone =
      ⟨cfg.maxRetries + 1,
       (List.range cfg.maxRetries).map
         (fun k => min (cfg.initialDelay * 2 ^ k) cfg.maxDelay),
       .err (.exhausted (cfg.maxRetries + 1) (some (submit cfg.maxRetries)))⟩ := by
  have hrest := submitStep_all_retryable cfg submit ctxDone hr hc
    cfg.maxRetries 1 cfg.initialDelay (some (submit 0)) (by omega)
  have hdel : (List.range cfg.maxRetries).map
      (delayIter cfg.backoffMultiplier cfg.maxDelay cfg.initialDelay) =
      (List.range cfg.maxRetries).map
        (fun k => min (cfg.initialDelay * 2 ^ k) cfg.maxDelay) := by
    apply List.map_congr_left
    intro n _
    rw [hmult]
    exact delayIter_closed_form cfg.maxDelay cfg.initialDelay hinit n
  have hlast : (if cfg.maxRetries = 0 then some (submit 0)
      else some (submit (1 + cfg.maxRetries - 1))) = some (submit cfg.maxRetries) := by
    by_cases h : cfg.maxRetries = 0
    · rw [if_pos h, h]
    · rw [if_neg h]
      have : 1 + cfg.maxRetries - 1 = cfg.maxRetries := by omega
      rw [this]
  unfold submitWithRetry
  rw [submitStep]
  rw [if_pos rfl]
  cases hs : submit 0 with
  | success h l =>
      have := hr 0
      rw [hs] at this
      simp [retryableOutcome] at this
  | horizonError code =>
      have hret := hr 0
      rw [hs] at hret
      simp [retryableOutcome] at hret
      dsimp only
      rw [hret]
      simp only [Bool.false_eq_true, if_false]
      rw [← hs, hrest]
      simp only [SubmitRun.mk.injEq]
      exact ⟨by omega, by simpa using hdel, by rw [hlast]⟩
  | otherError m =>
      dsimp only
      rw [← hs, hrest]
      simp only [SubmitRun.mk.injEq]
      exact ⟨by omega, by simpa using hdel, by rw [hlast]⟩

/-- Witness for `C3_retry_backoff`: under the default configuration and
persistent non-fatal failures the run makes 4 attempts with backoff delays
1s, 2s, 4s and then reports the last error with the attempt count. -/
theorem C3_retry_backoff_witness :
    submitWithRetry DefaultRetryConfig (fun _ => .otherError "boom") (fun _ => false) =
      ⟨4, [1000000000, 2000000000, 4000000000],
       .err (.exhausted 4 (some (.otherError "boom")))⟩ := by
  have h := C3_retry_backoff DefaultRetryConfig (fun _ => .otherError "boom")
    (fun _ => false) rfl (by decide) (fun k => rfl) (fun k => rfl)
  rw [h]
  decide

/-! ## Confirmation polling (`tx.go` `WaitForConfirmation`, RPC
`PollTransactionStatus`) -/

/-- The 2-second ticker interval, in nanoseconds. -/
def tickNs : Nat := 2000000000

/-- A Horizon `TransactionDetail` response: its inclusion ledger and its
`Successful` flag (which `WaitForConfirmation` never inspects). -/
structure TxDetail where
  ledger : Nat
  successful : Bool
deriving Repr, DecidableEq

/-- What a run of `WaitForConfirmation` can end with.  `fuelExhausted` is an
artefact of the fuel-based embedding; the top-level wrapper always supplies
enough fuel for the deadline check to fire first. -/
inductive WaitResult
  | cancelled
  | timedOut (hash : String)
  | confirmed (res : TransactionResult)
  | fuelExhausted
deriving Repr, DecidableEq

/-- The polling loop of `WaitForConfirmation` (`tx.go` lines 158–195).
Tick `k` (0-based) fires at elapsed time `(k+1) * tickNs`.  Each iteration
first observes the caller's cancellation signal (`ctx.Done()` in the
`select`), then compares the current time against the deadline, then asks
Horizon for the transaction (`details k`; `none` models a lookup error, on
which polling continues).  A found transaction is returned with status
`"success"` unconditionally.  The pair returned counts the number of
`TransactionDetail` polls performed. -/
def waitAux (cancel : Nat → Bool) (details : Nat → Option TxDetail)
    (hash : String) (timeout : Nat) : Nat → Nat → Nat × WaitResult
  | 0, _ => (0, .fuelExhausted)
  | fuel + 1, k =>
      if cancel k then (0, .cancelled)
      else if (k + 1) * tickNs > timeout then (0, .timedOut hash)
      else
        match details k with
        | some d => (1, .confirmed ⟨hash, d.ledger, "success"⟩)
        | none =>
            let rest := waitAux cancel details hash timeout fuel (k + 1)
            (1 + rest.1, rest.2)

/-- `WaitForConfirmation` from `tx.go`: the loop needs at most
`timeout / tickNs + 1` iterations before the deadline check fires, which is
the fuel supplied. -/
def waitForConfirmation (cancel : Nat → Bool) (details : Nat → Option TxDetail)
    (hash : String) (timeout : Nat) : Nat × WaitResult :=
  waitAux cancel details hash timeout (timeout / tickNs + 1) 0

theorem waitAux_timeout (cancel : Nat → Bool) (details : Nat → Option TxDetail)
    (hash : String) (timeout : Nat)
    (hcan : ∀ k, cancel k = false) (hdet : ∀ k, details k = none) :
    ∀ j k, k + j = timeout / tickNs → j < timeout / tickNs + 1 →
      waitAux cancel details hash timeout (timeout / tickNs + 1 - k) k =
        (j, .timedOut hash) := by
  intro j
  induction j with
  | zero =>
      intro k hk _
      have hk' : k = timeout / tickNs := by omega
      have hfuel : timeout / tickNs + 1 - k = 1 := by omega
      rw [hfuel, waitAux]
      rw [hcan k]
      simp only [Bool.false_eq_true, if_false]
      rw [if_pos]
      subst hk'
      simp only [tickNs]
      omega
  | succ j ih =>
      intro k hk hj
      have hfuel : timeout / tickNs + 1 - k = (timeout / tickNs + 1 - (k + 1)) + 1 := by
        omega
      rw [hfuel, waitAux]
      rw [hcan k]
      simp only [Bool.false_eq_true, if_false]
      rw [if_neg, hdet k]
      · have hrest := ih (k + 1) (by omega) (by omega)
        dsimp only
        rw [hrest]
        simp [Nat.add_comm]
      · simp only [tickNs] at *
        omega

theorem waitAux_cancel (cancel : Nat → Bool) (details : Nat → Option TxDetail)
    (hash : String) (timeout : Nat) :
    ∀ j k fuel, (∀ i, i < j → cancel (k + i) = false ∧ details (k + i) = none) →
      cancel (k + j) = true → (k + j) * tickNs ≤ timeout → j < fuel →
      waitAux cancel details hash timeout fuel k = (j, .cancelled) := by
  intro j
  induction j with
  | zero =>
      intro k fuel _ hcanc _ hfuel
      obtain ⟨fuel, rfl⟩ : ∃ f, fuel = f + 1 := ⟨fuel - 1, by omega⟩
      rw [waitAux]
      simp only [Nat.add_zero] at hcanc
      rw [hcanc]
      simp
  | succ j ih =>
      intro k fuel hbefore hcanc htime hfuel
      obtain ⟨fuel, rfl⟩ : ∃ f, fuel = f + 1 := ⟨fuel - 1, by omega⟩
      rw [waitAux]
      have h0 := hbefore 0 (by omega)
      simp only [Nat.add_zero] at h0
      rw [h0.1]
      simp only [Bool.false_eq_true, if_false]
      rw [if_neg, h0.2]
      · have hrest := ih (k + 1) fuel
          (fun i hi => by
            have := hbefore (i + 1) (by omega)
            constructor
            · have heq : k + 1 + i = k + (i + 1) := by omega
              rw [heq]; exact this.1
            · have heq : k + 1 + i = k + (i + 1) := by omega
              rw [heq]; exact this.2)
          (by have heq : k + 1 + j = k + (j + 1) := by omega
              rw [heq]; exact hcanc)
          (by have heq : k + 1 + j = k + (j + 1) := by omega
              rw [heq]; exact htime)
          (by omega)
        dsimp only
        rw [hrest]
        simp [Nat.add_comm]
      · have : (k + 1) * tickNs ≤ (k + (j + 1)) * tickNs := by
          apply Nat.mul_le_mul_right
          omega
        omega

/-- C4: `WaitForConfirmation` polls on a 2-second tick until the transaction
is observed or the timeout elapses.  (a) With a live context and a
transaction that is never observed it performs `timeout / 2s` polls and
returns the timeout error; (b) if the caller's cancellation signal fires at
tick `j` (with the deadline not yet passed) it aborts at once with the
cancellation result, having performed exactly the `j` earlier polls; and
(c) the cancellation result is distinct from the timeout result. -/
theorem C4_wait_confirmation (cancel : Nat → Bool) (details : Nat → Option TxDetail)
    (hash : String) (timeout : Nat) :
    ((∀ k, cancel k = false) → (∀ k, details k = none) →
      waitForConfirmation cancel details hash timeout =
        (timeout / tickNs, .timedOut hash)) ∧
    (∀ j, (∀ i, i < j → cancel i = false ∧ details i = none) →
      cancel j = true → j * tickNs ≤ timeout →
      waitForConfirmation cancel details hash timeout = (j, .cancelled)) ∧
    WaitResult.cancelled ≠ WaitResult.timedOut hash := by
  refine ⟨?_, ?_, by simp⟩
  · intro hcan hdet
    have h := waitAux_timeout cancel details hash timeout hcan hdet
      (timeout / tickNs) 0 (by omega) (by omega)
    simpa [waitForConfirmation] using h
  · intro j hbefore hcanc htime
    have hj : j ≤ timeout / tickNs := by
      rw [Nat.le_div_iff_mul_le (by simp [tickNs])]
      exact htime
    have h := waitAux_cancel cancel details hash timeout j 0 (timeout / tickNs + 1)
      (fun i hi => by simpa using hbefore i hi)
      (by simpa using hcanc) (by simpa using htime) (by omega)
    simpa [waitForConfirmation] using h

/-- Witness for `C4_wait_confirmation`: with a 10-second timeout an
unobserved transaction times out after 5 polls, and a cancellation at tick 2
aborts with the cancellation result after 2 polls. -/
theorem C4_wait_confirmation_witness :
    waitForConfirmation (fun _ => false) (fun _ => none) "h" 10000000000 =
      (5, .timedOut "h") ∧
    waitForConfirmation (fun k => decide (k = 2)) (fun _ => none) "h" 10000000000 =
      (2, .cancelled) := by
  constructor
  · exact (C4_wait_confirmation (fun _ => false) (fun _ => none) "h" 10000000000).1
      (fun _ => rfl) (fun _ => rfl)
  · exact (C4_wait_confirmation (fun k => decide (k = 2)) (fun _ => none) "h"
      10000000000).2.1 2 (by decide) (by decide) (by decide)

/-- What a run of RPC `PollTransactionStatus` can end with. -/
inductive PollResult
  | cancelled
  | timedOut (hash : String)
  | statusFound (status : String)
  | fuelExhausted
deriving Repr, DecidableEq

/-- The polling loop of the RPC client's `PollTransactionStatus`.
`txStatus k` models `GetTransactionStatus` at tick `k`: `none` is an RPC
error (continue polling), `some st` a decoded result map whose `status`
field, when present and a string, is `st`.  Polling returns the map only
when that field is `SUCCESS` or `FAILED`; otherwise it continues. -/
def pollAux (cancel : Nat → Bool) (txStatus : Nat → Option (Option String))
    (hash : String) (timeout : Nat) : Nat → Nat → PollResult
  | 0, _ => .fuelExhausted
  | fuel + 1, k =>
      if cancel k then .cancelled
      else if (k + 1) * tickNs > timeout then .timedOut hash
      else
        match txStatus k with
        | none => pollAux cancel txStatus hash timeout fuel (k + 1)
        | some st =>
            match st with
            | some s =>
                if s = "SUCCESS" ∨ s = "FAILED" then .statusFound s
                else pollAux cancel txStatus hash timeout fuel (k + 1)
            | none => pollAux cancel txStatus hash timeout fuel (k + 1)

/-- `PollTransactionStatus` with the fuel that the deadline check bounds. -/
def pollTransactionStatus (cancel : Nat → Bool)
    (txStatus : Nat → Option (Option String)) (hash : String) (timeout : Nat) :
    PollResult :=
  pollAux cancel txStatus hash timeout (timeout / tickNs + 1) 0

theorem waitAux_confirmed_status (cancel : Nat → Bool)
    (details : Nat → Option TxDetail) (hash : String) (timeout : Nat) :
    ∀ fuel k r, (waitAux cancel details hash timeout fuel k).2 = .confirmed r →
      r.status = "success" := by
  intro fuel
  induction fuel with
  | zero => intro k r h; simp [waitAux] at h
  | succ fuel ih =>
      intro k r h
      rw [waitAux] at h
      by_cases hc : cancel k
      · rw [if_pos hc] at h; simp at h
      · rw [if_neg (by simpa using hc)] at h
        by_cases ht : (k + 1) * tickNs > timeout
        · rw [if_pos ht] at h; simp at h
        · rw [if_neg ht] at h
          cases hd : details k with
          | some d =>
              rw [hd] at h
              dsimp only at h
              have := h.symm
              injection this with h1
              rw [h1]
          | none =>
              rw [hd] at h
              dsimp only at h
              exact ih (k + 1) r h

theorem pollAux_terminal (cancel : Nat → Bool)
    (txStatus : Nat → Option (Option String)) (hash : String) (timeout : Nat) :
    ∀ fuel k s, pollAux cancel txStatus hash timeout fuel k = .statusFound s →
      s = "SUCCESS" ∨ s = "FAILED" := by
  intro fuel
  induction fuel with
  | zero => intro k s h; simp [pollAux] at h
  | succ fuel ih =>
      intro k s h
      rw [pollAux] at h
      by_cases hc : cancel k
      · rw [if_pos hc] at h; simp at h
      · rw [if_neg (by simpa using hc)] at h
        by_cases ht : (k + 1) * tickNs > timeout
        · rw [if_pos ht] at h; simp at h
        · rw [if_neg ht] at h
          cases hd : txStatus k with
          | none =>
              rw [hd] at h
              exact ih (k + 1) s h
          | some st =>
              rw [hd] at h
              cases st with
              | none => exact ih (k + 1) s h
              | some s' =>
                  dsimp only at h
                  by_cases hterm : s' = "SUCCESS" ∨ s' = "FAILED"
                  · rw [if_pos hterm] at h
                    injection h with h1
                    rw [h1] at hterm
                    exact hterm
                  · rw [if_neg hterm] at h
                    exact ih (k + 1) s h

/-- C10: whenever `WaitForConfirmation` returns without error it labels the
result `"success"`, no matter what the retrieved transaction detail says —
including a transaction whose Horizon `Successful` flag is false; only the
RPC-level `PollTransactionStatus` distinguishes the terminal `SUCCESS` and
`FAILED` states, returning exactly when the reported status is one of
those two. -/
theorem C10_confirmation_status (cancel : Nat → Bool)
    (details : Nat → Option TxDetail) (txStatus : Nat → Option (Option String))
    (hash : String) (timeout : Nat) (r : TransactionResult) (s : String) :
    ((waitForConfirmation cancel details hash timeout).2 = .confirmed r →
      r.status = "success") ∧
    (pollTransactionStatus cancel txStatus hash timeout = .statusFound s →
      s = "SUCCESS" ∨ s = "FAILED") := by
  constructor
  · intro h
    exact waitAux_confirmed_status cancel details hash timeout _ 0 r h
  · intro h
    exact pollAux_terminal cancel txStatus hash timeout _ 0 s h

/-- Witness for `C10_confirmation_status`: a transaction whose Horizon
detail has `Successful = false` is still confirmed as `"success"`, while the
RPC poller surfaces the terminal `FAILED` status. -/
theorem C10_confirmation_status_witness :
    (waitForConfirmation (fun _ => false) (fun _ => some ⟨7, false⟩) "h"
        10000000000).2 = .confirmed ⟨"h", 7, "success"⟩ ∧
    (⟨"h", 7, "success"⟩ : TransactionResult).status = "success" ∧
    pollTransactionStatus (fun _ => false) (fun _ => some (some "FAILED")) "h"
        10000000000 = .statusFound "FAILED" ∧
    ("FAILED" = "SUCCESS" ∨ "FAILED" = "FAILED") := by
  refine ⟨by decide, ?_, by decide, ?_⟩
  · exact (C10_confirmation_status (fun _ => false) (fun _ => some ⟨7, false⟩)
      (fun _ => some (some "FAILED")) "h" 10000000000 ⟨"h", 7, "success"⟩
      "FAILED").1 (by decide)
  · exact (C10_confirmation_status (fun _ => false) (fun _ => some ⟨7, false⟩)
      (fun _ => some (some "FAILED")) "h" 10000000000 ⟨"h", 7, "success"⟩
      "FAILED").2 (by decide)

/-! ## Contract-address encoding (`tx.go` `EncodeContractAddress`) -/

/-- Hexadecimal digits as `fmt`'s scanner accepts them for `%x`. -/
def isHexDigitChar (c : Char) : Bool :=
  (decide ('0' ≤ c) && decide (c ≤ '9')) ||
  (decide ('a' ≤ c) && decide (c ≤ 'f')) ||
  (decide ('A' ≤ c) && decide (c ≤ 'F'))

/-- Value of a hexadecimal digit. -/
def hexVal (c : Char) : Nat :=
  if decide ('0' ≤ c) && decide (c ≤ '9') then c.toNat - 48
  else if decide ('a' ≤ c) && decide (c ≤ 'f') then c.toNat - 87
  else c.toNat - 55

/-- `fmt.Sscanf(window, "%02x", &b)` on a 2-character window, as used by
`EncodeContractAddress`: the verb skips leading blanks (space or tab; a
newline in the input would fail to match the format), then reads one or two
hexadecimal digits, stopping at the first non-digit WITHOUT error — so a
window whose first character is a hex digit parses even when its second is
not, yielding the one-digit value. -/
def scanHexWindow (c0 c1 : Char) : Option Nat :=
  if c0 = ' ' || c0 = '\t' then
    if isHexDigitChar c1 then some (hexVal c1) else none
  else if isHexDigitChar c0 then
    if isHexDigitChar c1 then some (16 * hexVal c0 + hexVal c1)
    else some (hexVal c0)
  else none

/-- The hex branch of `EncodeContractAddress`: scan the 32 two-character
windows in order, failing at the first window the scanner rejects. -/
def hexWindows : List Char → Option (List Nat)
  | [] => some []
  | c0 :: c1 :: rest =>
      match scanHexWindow c0 c1 with
      | none => none
      | some b =>
          match hexWindows rest with
          | none => none
          | some bs => some (b :: bs)
  | [_] => none

/-- Index of a character in the standard base64 alphabet. -/
def b64Index (c : Char) : Option Nat :=
  if decide ('A' ≤ c) && decide (c ≤ 'Z') then some (c.toNat - 65)
  else if decide ('a' ≤ c) && decide (c ≤ 'z') then some (c.toNat - 97 + 26)
  else if decide ('0' ≤ c) && decide (c ≤ '9') then some (c.toNat - 48 + 52)
  else if c = '+' then some 62
  else if c = '/' then some 63
  else none

/-- Decoding of padded base64 quanta as Go's `base64.StdEncoding` performs
it: four characters at a time; `=` is legal only as the final one or two
characters of the final quantum; a trailing partial quantum is corrupt.
Trailing-bit garbage is not rejected (Go's non-strict decoder). -/
def b64Quanta : List Char → Option (List Nat)
  | [] => some []
  | c0 :: c1 :: c2 :: c3 :: rest =>
      match b64Index c0, b64Index c1 with
      | some v0, some v1 =>
          if c2 = '=' then
            if c3 = '=' && rest.isEmpty then some [v0 * 4 + v1 / 16]
            else none
          else
            match b64Index c2 with
            | some v2 =>
                if c3 = '=' then
                  if rest.isEmpty then
                    some [v0 * 4 + v1 / 16, (v1 % 16) * 16 + v2 / 4]
                  else none
                else
                  match b64Index c3 with
                  | some v3 =>
                      match b64Quanta rest with
                      | some bs =>
                          some ((v0 * 4 + v1 / 16) ::
                                ((v1 % 16) * 16 + v2 / 4) ::
                                ((v2 % 4) * 64 + v3) :: bs)
                      | none => none
                  | none => none
            | none => none
      | _, _ => none
  | _ => none

/-- `base64.StdEncoding.DecodeString`: carriage returns and newlines are
ignored wherever they appear; the rest must decode as padded quanta. -/
def base64Decode (cs : List Char) : Option (List Nat) :=
  b64Quanta (cs.filter (fun c => !(c = '\r' || c = '\n')))

/-- `EncodeContractAddress` from `tx.go`: a 64-character input is first run
through the per-window `Sscanf "%02x"` hex scan; if every window scans, the
32 scanned bytes are the contract id.  Otherwise the original string is
base64-decoded and must yield exactly 32 bytes. -/
def EncodeContractAddress (contractID : String) : Except String (List Nat) :=
  let cs := contractID.data
  let viaBase64 : Except String (List Nat) :=
    match base64Decode cs with
    | none => .error "invalid contract ID format (expected hex or base64)"
    | some bs =>
        if bs.length = 32 then .ok bs
        else .error "contract ID must be 32 bytes"
  if cs.length = 64 then
    match hexWindows cs with
    | some bs => .ok bs
    | none => viaBase64
  else viaBase64

/-- The standard base64 alphabet. -/
def b64Alphabet : List Char :=
  "ABCDEFGHIJKLMNOPQRSTUVWXYZabcdefghijklmnopqrstuvwxyz0123456789+/".data

/-- Character for a 6-bit value in the standard base64 alphabet. -/
def b64Char (n : Nat) : Char :=
  b64Alphabet.getD n 'A'

/-- Standard padded base64 encoding, the reference inverse used to state
what "a base64 encoding of exactly 32 raw bytes" accepts. -/
def base64Encode : List Nat → List Char
  | [] => []
  | [b0] => [b64Char (b0 / 4), b64Char ((b0 % 4) * 16), '=', '=']
  | [b0, b1] =>
      [b64Char (b0 / 4), b64Char ((b0 % 4) * 16 + b1 / 16),
       b64Char ((b1 % 16) * 4), '=']
  | b0 :: b1 :: b2 :: rest =>
      b64Char (b0 / 4) :: b64Char ((b0 % 4) * 16 + b1 / 16) ::
      b64Char ((b1 % 16) * 4 + b2 / 64) :: b64Char (b2 % 64) ::
      base64Encode rest

/-- A 64-hexadecimal-character string, the first acceptable shape named by
the claim. -/
def isHex64 (s : String) : Bool :=
  decide (s.data.length = 64) && s.data.all isHexDigitChar

theorem b64Index_b64Char : ∀ v, v < 64 → b64Index (b64Char v) = some v := by
  decide

theorem b64Char_ne_pad : ∀ v, v < 64 → (b64Char v = '=') = False := by
  decide

theorem b64Char_not_crlf : ∀ v, v < 64 →
    (!(b64Char v = '\r' || b64Char v = '\n')) = true := by
  decide

theorem b64Char_not_crlf_all (v : Nat) :
    (!(b64Char v = '\r' || b64Char v = '\n')) = true := by
  by_cases hv : v < 64
  · exact b64Char_not_crlf v hv
  · have hlen : b64Alphabet.length ≤ v := by
      have h64 : b64Alphabet.length = 64 := rfl
      omega
    have hA : b64Char v = 'A' := List.getD_eq_default b64Alphabet 'A' hlen
    rw [hA]
    decide

theorem base64Encode_no_crlf (bs : List Nat) :
    ∀ c ∈ base64Encode bs, (!(c = '\r' || c = '\n')) = true := by
  match bs with
  | [] => intro c hc; simp [base64Encode] at hc
  | [b0] =>
      intro c hc
      simp only [base64Encode, List.mem_cons, List.not_mem_nil, or_false] at hc
      rcases hc with h | h | h | h <;> rw [h] <;>
        first
        | exact b64Char_not_crlf_all _
        | decide
  | [b0, b1] =>
      intro c hc
      simp only [base64Encode, List.mem_cons, List.not_mem_nil, or_false] at hc
      rcases hc with h | h | h | h <;> rw [h] <;>
        first
        | exact b64Char_not_crlf_all _
        | decide
  | b0 :: b1 :: b2 :: b3 :: rest =>
      intro c hc
      simp only [base64Encode, List.mem_cons] at hc
      rcases hc with h | h | h | h | h
      · rw [h]; exact b64Char_not_crlf_all _
      · rw [h]; exact b64Char_not_crlf_all _
      · rw [h]; exact b64Char_not_crlf_all _
      · rw [h]; exact b64Char_not_crlf_all _
      · exact base64Encode_no_crlf (b3 :: rest) c (by simpa using h)
  | [b0, b1, b2] =>
      intro c hc
      simp only [base64Encode, List.mem_cons, List.not_mem_nil, or_false] at hc
      rcases hc with h | h | h | h <;> rw [h] <;> exact b64Char_not_crlf_all _

theorem b64Quanta_encode (bs : List Nat) (hb : ∀ b ∈ bs, b < 256) :
    b64Quanta (base64Encode bs) = some bs := by
  match bs with
  | [] => rfl
  | [b0] =>
      have h0 : b0 < 256 := hb b0 (by simp)
      simp only [base64Encode, b64Quanta,
        b64Index_b64Char (b0 / 4) (by omega),
        b64Index_b64Char ((b0 % 4) * 16) (by omega)]
      simp
      omega
  | [b0, b1] =>
      have h0 : b0 < 256 := hb b0 (by simp)
      have h1 : b1 < 256 := hb b1 (by simp)
      simp only [base64Encode, b64Quanta,
        b64Index_b64Char (b0 / 4) (by omega),
        b64Index_b64Char ((b0 % 4) * 16 + b1 / 16) (by omega),
        b64Index_b64Char ((b1 % 16) * 4) (by omega),
        b64Char_ne_pad ((b1 % 16) * 4) (by omega)]
      simp
      constructor
      · omega
      · omega
  | b0 :: b1 :: b2 :: b3 :: rest =>
      have h0 : b0 < 256 := hb b0 (by simp)
      have h1 : b1 < 256 := hb b1 (by simp)
      have h2 : b2 < 256 := hb b2 (by simp)
      have ih := b64Quanta_encode (b3 :: rest)
        (fun b hbm => hb b (by simp at hbm ⊢; tauto))
      simp only [base64Encode, b64Quanta,
        b64Index_b64Char (b0 / 4) (by omega),
        b64Index_b64Char ((b0 % 4) * 16 + b1 / 16) (by omega),
        b64Index_b64Char ((b1 % 16) * 4 + b2 / 64) (by omega),
        b64Index_b64Char (b2 % 64) (by omega),
        b64Char_ne_pad ((b1 % 16) * 4 + b2 / 64) (by omega),
        b64Char_ne_pad (b2 % 64) (by omega)]
      rw [ih]
      simp
      refine ⟨by omega, by omega, by omega⟩
  | [b0, b1, b2] =>
      have h0 : b0 < 256 := hb b0 (by simp)
      have h1 : b1 < 256 := hb b1 (by simp)
      have h2 : b2 < 256 := hb b2 (by simp)
      simp only [base64Encode, b64Quanta,
        b64Index_b64Char (b0 / 4) (by omega),
        b64Index_b64Char ((b0 % 4) * 16 + b1 / 16) (by omega),
        b64Index_b64Char ((b1 % 16) * 4 + b2 / 64) (by omega),
        b64Index_b64Char (b2 % 64) (by omega),
        b64Char_ne_pad ((b1 % 16) * 4 + b2 / 64) (by omega),
        b64Char_ne_pad (b2 % 64) (by omega)]
      simp
      refine ⟨by omega, by omega, by omega⟩

theorem base64Decode_encode (bs : List Nat) (hb : ∀ b ∈ bs, b < 256) :
    base64Decode (base64Encode bs) = some bs := by
  unfold base64Decode
  rw [List.filter_eq_self.mpr (base64Encode_no_crlf bs)]
  exact b64Quanta_encode bs hb

theorem hexWindows_of_hex (cs : List Char)
    (hhex : ∀ c ∈ cs, isHexDigitChar c = true) (heven : cs.length % 2 = 0) :
    ∃ bs, hexWindows cs = some bs ∧ bs.length = cs.length / 2 := by
  match cs with
  | [] => exact ⟨[], rfl, rfl⟩
  | [c] => simp at heven
  | c0 :: c1 :: rest =>
      have hc0 : isHexDigitChar c0 = true := hhex c0 (by simp)
      have hc1 : isHexDigitChar c1 = true := hhex c1 (by simp)
      have hns : (c0 = ' ' || c0 = '\t') = false := by
        by_cases hs : c0 = ' '
        · rw [hs] at hc0; exact absurd hc0 (by decide)
        · by_cases ht : c0 = '\t'
          · rw [ht] at hc0; exact absurd hc0 (by decide)
          · simp [hs, ht]
      obtain ⟨bs, hbs, hlen⟩ := hexWindows_of_hex rest
        (fun c hcm => hhex c (by simp [hcm]))
        (by simp at heven ⊢; omega)
      refine ⟨(16 * hexVal c0 + hexVal c1) :: bs, ?_, ?_⟩
      · simp [hexWindows, scanHexWindow, hns, hc0, hc1, hbs]
      · simp [hlen]
        omega

theorem base64Encode_length (bs : List Nat) :
    (base64Encode bs).length = 4 * ((bs.length + 2) / 3) := by
  match bs with
  | [] => rfl
  | [b0] => simp [base64Encode]
  | [b0, b1] => simp [base64Encode]
  | b0 :: b1 :: b2 :: rest =>
      have ih := base64Encode_length rest
      simp only [base64Encode, List.length_cons, ih]
      omega

/-- C5 fails as stated: the hex branch scans each 2-character window with
`fmt.Sscanf("%02x", ...)`, which succeeds on a window whose first character
is a hex digit even if its second is not.  The 64-character string
`"0g0g…0g"` is neither 64 hex characters (it contains `g`) nor base64 of 32
bytes (as base64 it would decode to 48 bytes), yet `EncodeContractAddress`
accepts it, yielding 32 zero bytes. -/
theorem C5_counterexample :
    (EncodeContractAddress
        "0g0g0g0g0g0g0g0g0g0g0g0g0g0g0g0g0g0g0g0g0g0g0g0g0g0g0g0g0g0g0g0g").toOption =
      some (List.replicate 32 0) ∧
    ("0g0g0g0g0g0g0g0g0g0g0g0g0g0g0g0g0g0g0g0g0g0g0g0g0g0g0g0g0g0g0g0g".data.all
        isHexDigitChar) = false ∧
    (base64Decode
        "0g0g0g0g0g0g0g0g0g0g0g0g0g0g0g0g0g0g0g0g0g0g0g0g0g0g0g0g0g0g0g0g".data).map
        List.length = some 48 := by
  refine ⟨by decide, by decide, by decide⟩

/-- C5 (amended): every 64-hex-character string is accepted (yielding 32
bytes), and every standard base64 encoding of exactly 32 raw bytes is
accepted (yielding those bytes); conversely every accepted input either is a
64-character string whose 2-character windows all pass the lenient
`Sscanf "%02x"` scan — a strictly larger set than the 64-hex strings — or
base64-decodes to exactly 32 bytes. -/
theorem C5_accepted_inputs :
    (∀ s : String, isHex64 s = true →
      ∃ bs, EncodeContractAddress s = .ok bs ∧ bs.length = 32) ∧
    (∀ bs : List Nat, bs.length = 32 → (∀ b ∈ bs, b < 256) →
      EncodeContractAddress (String.mk (base64Encode bs)) = .ok bs) ∧
    (∀ s : String, ∀ bs, EncodeContractAddress s = .ok bs →
      (s.data.length = 64 ∧ hexWindows s.data = some bs) ∨
      (base64Decode s.data = some bs ∧ bs.length = 32)) := by
  refine ⟨?_, ?_, ?_⟩
  · intro s hs
    simp only [isHex64, Bool.and_eq_true, decide_eq_true_eq, List.all_eq_true] at hs
    obtain ⟨hlen, hhex⟩ := hs
    obtain ⟨bs, hbs, hbslen⟩ := hexWindows_of_hex s.data hhex (by omega)
    refine ⟨bs, ?_, by omega⟩
    unfold EncodeContractAddress
    rw [if_pos hlen, hbs]
  · intro bs hlen hb
    have hdec := base64Decode_encode bs hb
    have henc : (base64Encode bs).length = 44 := by
      rw [base64Encode_length, hlen]
    unfold EncodeContractAddress
    have hne : ¬ (String.mk (base64Encode bs)).data.length = 64 := by
      simp only [String.mk]
      omega
    rw [if_neg hne]
    have hdata : (String.mk (base64Encode bs)).data = base64Encode bs := rfl
    rw [hdata, hdec]
    dsimp only
    rw [if_pos hlen]
  · intro s bs h
    unfold EncodeContractAddress at h
    by_cases hlen : s.data.length = 64
    · rw [if_pos hlen] at h
      cases hw : hexWindows s.data with
      | some ws =>
          rw [hw] at h
          injection h with h1
          exact Or.inl ⟨hlen, congrArg some h1⟩
      | none =>
          rw [hw] at h
          dsimp only at h
          cases hb : base64Decode s.data with
          | none => rw [hb] at h; exact absurd h (by simp)
          | some ds =>
              rw [hb] at h
              dsimp only at h
              by_cases h32 : ds.length = 32
              · rw [if_pos h32] at h
                injection h with h1
                exact Or.inr ⟨congrArg some h1, h1 ▸ h32⟩
              · rw [if_neg h32] at h
                exact absurd h (by simp)
    · rw [if_neg hlen] at h
      cases hb : base64Decode s.data with
      | none => rw [hb] at h; exact absurd h (by simp)
      | some ds =>
          rw [hb] at h
          dsimp only at h
          by_cases h32 : ds.length = 32
          · rw [if_pos h32] at h
            injection h with h1
            exact Or.inr ⟨congrArg some h1, h1 ▸ h32⟩
          · rw [if_neg h32] at h
            exact absurd h (by simp)

set_option maxRecDepth 8000 in
/-- Witness for `C5_accepted_inputs` at concrete inputs: the all-zero hex
string, the base64 encoding of 32 zero bytes, and the acceptance direction
at the all-zero hex string. -/
theorem C5_accepted_inputs_witness :
    (∃ bs, EncodeContractAddress
        "0000000000000000000000000000000000000000000000000000000000000000" =
          .ok bs ∧ bs.length = 32) ∧
    (EncodeContractAddress (String.mk (base64Encode (List.replicate 32 0))) =
      .ok (List.replicate 32 0)) ∧
    ((("0000000000000000000000000000000000000000000000000000000000000000" :
        String).data.length = 64 ∧
      hexWindows ("0000000000000000000000000000000000000000000000000000000000000000" :
        String).data = some (List.replicate 32 0)) ∨
    (base64Decode ("0000000000000000000000000000000000000000000000000000000000000000" :
        String).data = some (List.replicate 32 0) ∧
      (List.replicate 32 (0 : Nat)).length = 32)) := by
  refine ⟨?_, ?_, ?_⟩
  · exact C5_accepted_inputs.1
      "0000000000000000000000000000000000000000000000000000000000000000" (by decide)
  · exact C5_accepted_inputs.2.1 (List.replicate 32 0) (by decide) (by decide)
  · exact C5_accepted_inputs.2.2
      "0000000000000000000000000000000000000000000000000000000000000000"
      (List.replicate 32 0) (by decide)

/-! ## Signature verifier (`auth/verify.go`) -/

/-- Strict hex decoding of `encoding/hex.DecodeString`: even length, every
character a hex digit. -/
def hexPairs : List Char → Option (List Nat)
  | [] => some []
  | c0 :: c1 :: rest =>
      if isHexDigitChar c0 && isHexDigitChar c1 then
        match hexPairs rest with
        | some bs => some ((16 * hexVal c0 + hexVal c1) :: bs)
        | none => none
      else none
  | [_] => none

/-- `hexutil.Decode` from go-ethereum, used by `verifyEVM`: rejects the
empty string and any string without a `0x`/`0X` prefix; the remainder is
strict hex. -/
def hexutilDecode (s : String) : Option (List Nat) :=
  match s.data with
  | [] => none
  | '0' :: x :: rest =>
      if x = 'x' || x = 'X' then hexPairs rest else none
  | _ => none

/-- Go's `unicode.IsSpace` on the characters that matter for trimming. -/
def goIsSpace (c : Char) : Bool :=
  c = ' ' || c = '\t' || c = '\n' || c = '\r' || c = '\x0b' || c = '\x0c'

/-- `decodeHex` from `verify.go`: trim whitespace, reject the empty result,
drop an optional `0x`, then strict hex. -/
def decodeHexGo (s : String) : Option (List Nat) :=
  let v := (s.data.dropWhile goIsSpace).reverse.dropWhile goIsSpace |>.reverse
  match v with
  | [] => none
  | '0' :: 'x' :: rest => hexPairs rest
  | other => hexPairs other

/-- The byte-level recovery-id normalization of `verifyEVM`:
`if sig[64] >= 27 then sig[64] -= 27`. -/
def normRecoveryByte (b : Nat) : Nat :=
  if b ≥ 27 then b - 27 else b

/-- The signature after `verifyEVM`'s in-place normalization of its last
byte (the signature has 65 bytes when this runs). -/
def normalizeSig (sig : List Nat) : List Nat :=
  sig.set 64 (normRecoveryByte (sig.getD 64 0))

/-- The external go-ethereum primitives used by `verifyEVM`, abstracted:
`TextHash`, `SigToPub` (recovery may fail), and `PubkeyToAddress(..).Hex()`. -/
structure EvmCrypto (PubKey : Type) where
  textHash : String → List Nat
  sigToPub : List Nat → List Nat → Option PubKey
  pubkeyToAddress : PubKey → String

/-- `verifyEVM` from `verify.go`: decode the hex signature, require exactly
65 bytes, normalize the recovery id, recover the public key over the
canonical message hash, and compare the recovered address case-insensitively
with the claimed one. -/
def verifyEVM {PubKey : Type} (C : EvmCrypto PubKey)
    (expectedAddr message signatureHex : String) : Bool :=
  match hexutilDecode signatureHex with
  | none => false
  | some sig =>
      if sig.length ≠ 65 then false
      else
        match C.sigToPub (C.textHash message) (normalizeSig sig) with
        | none => false
        | some pub =>
            (C.pubkeyToAddress pub).toLower = expectedAddr.toLower

/-- The success condition of `verifyEVM`, named so that the dispatcher
theorems can reuse it. -/
def evmAccepts {PubKey : Type} (C : EvmCrypto PubKey)
    (expectedAddr message signatureHex : String) : Prop :=
  ∃ sig pub,
    hexutilDecode signatureHex = some sig ∧
    sig.length = 65 ∧
    C.sigToPub (C.textHash message) (normalizeSig sig) = some pub ∧
    (C.pubkeyToAddress pub).toLower = expectedAddr.toLower

theorem verifyEVM_iff {PubKey : Type} (C : EvmCrypto PubKey)
    (expectedAddr message signatureHex : String) :
    verifyEVM C expectedAddr message signatureHex = true ↔
      evmAccepts C expectedAddr message signatureHex := by
  unfold verifyEVM evmAccepts
  cases hdec : hexutilDecode signatureHex with
  | none =>
      simp only [hdec]
      constructor
      · intro h; exact absurd h (by simp)
      · rintro ⟨sig, pub, hsig, -⟩
        exact absurd hsig (by simp)
  | some sig =>
      simp only [hdec]
      by_cases hlen : sig.length = 65
      · rw [if_neg (by omega)]
        cases hrec : C.sigToPub (C.textHash message) (normalizeSig sig) with
        | none =>
            simp only [hrec]
            constructor
            · intro h; exact absurd h (by simp)
            · rintro ⟨sig', pub, hsig', hlen', hrec', heq⟩
              injection hsig' with he
              rw [← he] at hrec'
              rw [hrec] at hrec'
              exact absurd hrec' (by simp)
        | some pub =>
            simp only [hrec]
            constructor
            · intro h
              exact ⟨sig, pub, rfl, hlen, hrec, by simpa using h⟩
            · rintro ⟨sig', pub', hsig', hlen', hrec', heq⟩
              injection hsig' with he
              rw [← he] at hrec'
              rw [hrec] at hrec'
              injection hrec' with hp
              rw [hp]
              simpa using heq
      · rw [if_pos (by omega)]
        constructor
        · intro h; exact absurd h (by simp)
        · rintro ⟨sig', pub, hsig', hlen', -⟩
          injection hsig' with he
          rw [← he] at hlen'
          exact absurd hlen' hlen

/-- C6: for the EVM scheme, verification succeeds exactly when the hex
signature decodes, is exactly 65 bytes, public-key recovery over the
canonical message hash of the recovery-id-normalized signature succeeds, and
the recovered address equals the claimed address case-insensitively (any
other decoded length fails); and the normalization maps recovery ids 27 and
28 to 0 and 1. -/
theorem C6_verify_evm {PubKey : Type} (C : EvmCrypto PubKey)
    (expectedAddr message signatureHex : String) :
    (verifyEVM C expectedAddr message signatureHex = true ↔
      evmAccepts C expectedAddr message signatureHex) ∧
    normRecoveryByte 27 = 0 ∧ normRecoveryByte 28 = 1 :=
  ⟨verifyEVM_iff C expectedAddr message signatureHex, rfl, rfl⟩

/-- `verifyStellarEd25519` from `verify.go`, with `crypto/ed25519.Verify`
abstracted as `edVerify pubkey message signature`. -/
def verifyStellarEd25519 (edVerify : List Nat → String → List Nat → Bool)
    (message signatureHex publicKeyHex : String) : Bool :=
  match decodeHexGo publicKeyHex with
  | none => false
  | some pkb =>
      if pkb.length ≠ 32 then false
      else
        match decodeHexGo signatureHex with
        | none => false
        | some sb =>
            if sb.length ≠ 64 then false
            else edVerify pkb message sb

/-- The success condition of `verifyStellarEd25519`. -/
def edAccepts (edVerify : List Nat → String → List Nat → Bool)
    (message signatureHex publicKeyHex : String) : Prop :=
  ∃ pkb sb,
    decodeHexGo publicKeyHex = some pkb ∧ pkb.length = 32 ∧
    decodeHexGo signatureHex = some sb ∧ sb.length = 64 ∧
    edVerify pkb message sb = true

/-- The order of the secp256k1 group, the bound enforced by
`ModNScalar.SetByteSlice` (overflow iff the 32-byte value is not below it). -/
def secpOrder : Nat :=
  115792089237316195423570985008687907852837564279074904382605163141518161494337

/-- Big-endian bytes to a natural number. -/
def beBytesToNat (bs : List Nat) : Nat :=
  bs.foldl (fun a b => a * 256 + b) 0

/-- The external decred secp256k1 primitives used by
`verifyStellarSecp256k1`, abstracted: public-key parsing, DER signature
parsing, signature assembly from two scalars, ECDSA verification, and
SHA-256. -/
structure Secp256k1Crypto (PubKey Sig : Type) where
  parsePubKey : List Nat → Option PubKey
  parseDER : List Nat → Option Sig
  mkSignature : Nat → Nat → Sig
  verify : Sig → List Nat → PubKey → Bool
  sha256 : String → List Nat

/-- `parseSecp256k1Signature` from `verify.go`: a 64-byte signature is
compact — two 32-byte big-endian scalars, each required to be below the
group order (`SetByteSlice` overflow is rejected); anything else is handed
to the DER parser. -/
def parseSecp256k1Signature {PubKey Sig : Type} (C : Secp256k1Crypto PubKey Sig)
    (b : List Nat) : Option Sig :=
  if b.length = 64 then
    let r := beBytesToNat (b.take 32)
    let s := beBytesToNat (b.drop 32)
    if r ≥ secpOrder then none
    else if s ≥ secpOrder then none
    else some (C.mkSignature r s)
  else C.parseDER b

/-- `verifyStellarSecp256k1` from `verify.go`: decode and parse the required
public key, decode the signature hex, parse compact-or-DER, and verify over
the SHA-256 digest of the message. -/
def verifyStellarSecp256k1 {PubKey Sig : Type} (C : Secp256k1Crypto PubKey Sig)
    (message signatureHex publicKeyHex : String) : Bool :=
  match decodeHexGo publicKeyHex with
  | none => false
  | some pkb =>
      match C.parsePubKey pkb with
      | none => false
      | some pk =>
          match decodeHexGo signatureHex with
          | none => false
          | some sb =>
              match parseSecp256k1Signature C sb with
              | none => false
              | some sig => C.verify sig (C.sha256 message) pk

/-- The success condition of `verifyStellarSecp256k1`. -/
def secpAccepts {PubKey Sig : Type} (C : Secp256k1Crypto PubKey Sig)
    (message signatureHex publicKeyHex : String) : Prop :=
  ∃ pkb pk sb sig,
    decodeHexGo publicKeyHex = some pkb ∧
    C.parsePubKey pkb = some pk ∧
    decodeHexGo signatureHex = some sb ∧
    parseSecp256k1Signature C sb = some sig ∧
    C.verify sig (C.sha256 message) pk = true

/-- `VerifySignature` from `verify.go`: dispatch on the wallet type; any
other type is unsupported and fails. -/
def VerifySignature {PK1 PK2 Sig : Type} (E : EvmCrypto PK1)
    (S : Secp256k1Crypto PK2 Sig) (edVerify : List Nat → String → List Nat → Bool)
    (walletType address message signatureHex publicKeyHex : String) : Bool :=
  if walletType = "evm" then
    verifyEVM E address message signatureHex
  else if walletType = "stellar_ed25519" then
    verifyStellarEd25519 edVerify message signatureHex publicKeyHex
  else if walletType = "stellar_secp256k1" then
    verifyStellarSecp256k1 S message signatureHex publicKeyHex
  else false

theorem verifyStellarSecp256k1_iff {PubKey Sig : Type}
    (C : Secp256k1Crypto PubKey Sig) (message signatureHex publicKeyHex : String) :
    verifyStellarSecp256k1 C message signatureHex publicKeyHex = true ↔
      secpAccepts C message signatureHex publicKeyHex := by
  unfold verifyStellarSecp256k1 secpAccepts
  cases hpk : decodeHexGo publicKeyHex with
  | none =>
      simp only [hpk]
      constructor
      · intro h; exact absurd h (by simp)
      · rintro ⟨pkb, pk, sb, sig, hpkb, -⟩
        exact absurd hpkb (by simp)
  | some pkb =>
      simp only [hpk]
      cases hpp : C.parsePubKey pkb with
      | none =>
          simp only [hpp]
          constructor
          · intro h; exact absurd h (by simp)
          · rintro ⟨pkb', pk, sb, sig, hpkb', hpp', -⟩
            injection hpkb' with he
            rw [← he] at hpp'
            rw [hpp] at hpp'
            exact absurd hpp' (by simp)
      | some pk =>
          simp only [hpp]
          cases hsb : decodeHexGo signatureHex with
          | none =>
              simp only [hsb]
              constructor
              · intro h; exact absurd h (by simp)
              · rintro ⟨pkb', pk', sb, sig, hpkb', hpp', hsb', -⟩
                exact absurd hsb' (by simp [hsb])
          | some sb =>
              simp only [hsb]
              cases hps : parseSecp256k1Signature C sb with
              | none =>
                  simp only [hps]
                  constructor
                  · intro h; exact absurd h (by simp)
                  · rintro ⟨pkb', pk', sb', sig, hpkb', hpp', hsb', hps', -⟩
                    injection hsb' with he
                    rw [← he] at hps'
                    rw [hps] at hps'
                    exact absurd hps' (by simp)
              | some sig =>
                  simp only [hps]
                  constructor
                  · intro h
                    exact ⟨pkb, pk, sb, sig, rfl, hpp, rfl, hps, h⟩
                  · rintro ⟨pkb', pk', sb', sig', hpkb', hpp', hsb', hps', hv⟩
                    injection hpkb' with he1
                    rw [← he1] at hpp'
                    rw [hpp] at hpp'
                    injection hpp' with he2
                    injection hsb' with he3
                    rw [← he3] at hps'
                    rw [hps] at hps'
                    injection hps' with he4
                    rw [he2, he4]
                    exact hv

/-- C7: for the short-Weierstrass (Stellar secp256k1) scheme, verification
succeeds exactly when the required public key decodes and parses, the
signature hex decodes and parses as 64-byte compact (two 32-byte big-endian
scalars below the group order) or as DER, and the signature verifies over
the SHA-256 digest of the message under the supplied key; an absent public
key always fails. -/
theorem C7_verify_secp256k1 {PubKey Sig : Type} (C : Secp256k1Crypto PubKey Sig)
    (message signatureHex publicKeyHex : String) :
    (verifyStellarSecp256k1 C message signatureHex publicKeyHex = true ↔
      secpAccepts C message signatureHex publicKeyHex) ∧
    verifyStellarSecp256k1 C message signatureHex "" = false :=
  ⟨verifyStellarSecp256k1_iff C message signatureHex publicKeyHex, rfl⟩

theorem verifyStellarEd25519_iff (edVerify : List Nat → String → List Nat → Bool)
    (message signatureHex publicKeyHex : String) :
    verifyStellarEd25519 edVerify message signatureHex publicKeyHex = true ↔
      edAccepts edVerify message signatureHex publicKeyHex := by
  unfold verifyStellarEd25519 edAccepts
  cases hpk : decodeHexGo publicKeyHex with
  | none =>
      simp only [hpk]
      constructor
      · intro h; exact absurd h (by simp)
      · rintro ⟨pkb, sb, hpkb, -⟩
        exact absurd hpkb (by simp)
  | some pkb =>
      simp only [hpk]
      by_cases hplen : pkb.length = 32
      · rw [if_neg (by omega)]
        cases hsb : decodeHexGo signatureHex with
        | none =>
            simp only [hsb]
            constructor
            · intro h; exact absurd h (by simp)
            · rintro ⟨pkb', sb, hpkb', hplen', hsb', -⟩
              exact absurd hsb' (by simp [hsb])
        | some sb =>
            simp only [hsb]
            by_cases hslen : sb.length = 64
            · rw [if_neg (by omega)]
              constructor
              · intro h
                exact ⟨pkb, sb, rfl, hplen, rfl, hslen, h⟩
              · rintro ⟨pkb', sb', hpkb', hplen', hsb', hslen', hv⟩
                injection hpkb' with he1
                injection hsb' with he2
                rw [he1, he2]
                exact hv
            · rw [if_pos (by omega)]
              constructor
              · intro h; exact absurd h (by simp)
              · rintro ⟨pkb', sb', hpkb', hplen', hsb', hslen', -⟩
                injection hsb' with he2
                rw [← he2] at hslen'
                exact absurd hslen' hslen
      · rw [if_pos (by omega)]
        constructor
        · intro h; exact absurd h (by simp)
        · rintro ⟨pkb', sb', hpkb', hplen', -⟩
          injection hpkb' with he1
          rw [← he1] at hplen'
          exact absurd hplen' hplen

/-- C8: `VerifySignature` fails closed.  Whenever it succeeds, the wallet
type is one of the three supported ones and the corresponding scheme's full
success condition holds — every parse error, length mismatch, or
verification failure yields the failure outcome — and an unsupported wallet
type always fails. -/
theorem C8_fail_closed {PK1 PK2 Sig : Type} (E : EvmCrypto PK1)
    (S : Secp256k1Crypto PK2 Sig) (edVerify : List Nat → String → List Nat → Bool)
    (walletType address message signatureHex publicKeyHex : String) :
    (VerifySignature E S edVerify walletType address message signatureHex
        publicKeyHex = true →
      (walletType = "evm" ∧ evmAccepts E address message signatureHex) ∨
      (walletType = "stellar_ed25519" ∧
        edAccepts edVerify message signatureHex publicKeyHex) ∨
      (walletType = "stellar_secp256k1" ∧
        secpAccepts S message signatureHex publicKeyHex)) ∧
    (walletType ≠ "evm" → walletType ≠ "stellar_ed25519" →
      walletType ≠ "stellar_secp256k1" →
      VerifySignature E S edVerify walletType address message signatureHex
        publicKeyHex = false) := by
  constructor
  · intro h
    unfold VerifySignature at h
    by_cases h1 : walletType = "evm"
    · rw [if_pos h1] at h
      exact Or.inl ⟨h1, (verifyEVM_iff E address message signatureHex).mp h⟩
    · rw [if_neg h1] at h
      by_cases h2 : walletType = "stellar_ed25519"
      · rw [if_pos h2] at h
        exact Or.inr (Or.inl ⟨h2,
          (verifyStellarEd25519_iff edVerify message signatureHex publicKeyHex).mp h⟩)
      · rw [if_neg h2] at h
        by_cases h3 : walletType = "stellar_secp256k1"
        · rw [if_pos h3] at h
          exact Or.inr (Or.inr ⟨h3,
            (verifyStellarSecp256k1_iff S message signatureHex publicKeyHex).mp h⟩)
        · rw [if_neg h3] at h
          exact absurd h (by simp)
  · intro h1 h2 h3
    unfold VerifySignature
    rw [if_neg h1, if_neg h2, if_neg h3]

/-- Witness for `C8_fail_closed`: a trivial environment in which the
Edwards-curve scheme succeeds on well-formed hex inputs, and the unsupported
wallet type `"solana"` fails. -/
theorem C8_fail_closed_witness :
    (("stellar_ed25519" : String) = "evm" ∧
      evmAccepts ⟨fun _ => [], fun _ _ => (none : Option Unit), fun _ => ""⟩ "addr"
        "msg" "sig") ∨
    (("stellar_ed25519" : String) = "stellar_ed25519" ∧
      edAccepts (fun _ _ _ => true) "msg"
        "00000000000000000000000000000000000000000000000000000000000000000000000000000000000000000000000000000000000000000000000000000000"
        "0000000000000000000000000000000000000000000000000000000000000000") ∨
    (("stellar_ed25519" : String) = "stellar_secp256k1" ∧
      secpAccepts
        (⟨fun _ => none, fun _ => none, fun _ _ => (), fun _ _ _ => false,
          fun _ => []⟩ : Secp256k1Crypto Unit Unit) "msg"
        "00000000000000000000000000000000000000000000000000000000000000000000000000000000000000000000000000000000000000000000000000000000"
        "0000000000000000000000000000000000000000000000000000000000000000") :=
  (C8_fail_closed ⟨fun _ => [], fun _ _ => (none : Option Unit), fun _ => ""⟩
    ⟨fun _ => none, fun _ => none, fun _ _ => (), fun _ _ _ => false, fun _ => []⟩
    (fun _ _ _ => true) "stellar_ed25519" "addr" "msg"
    "00000000000000000000000000000000000000000000000000000000000000000000000000000000000000000000000000000000000000000000000000000000"
    "0000000000000000000000000000000000000000000000000000000000000000").1
    (by decide)

/-! ## Program contract client operations (`program.go`) -/

/-- The fixed 60-second confirmation timeout of `program.go`, nanoseconds. -/
def confirmTimeoutNs : Nat := 60000000000

/-- The environment a `ProgramEscrowContract` call runs against.
`preludeOk` models `BuildAndSubmit`'s pre-submission phase (account fetch,
transaction build, signing); `buildOpOk` models
`BuildInvokeHostFunctionOp`, and `encodeAddress` models
`EncodeScValAddress` — all three live in files absent from the snapshot, so
only their success or failure is tracked (modelled from the spec's §4.5
value-encoding layer; `EncodeScValInt64` and `EncodeScValVec` never fail on
the inputs these operations produce, per their tests, and are therefore
implicit).  The remaining fields drive the embedded `submitWithRetry` and
`waitForConfirmation`. -/
structure ProgramCallEnv where
  retry : RetryConfig
  submit : Nat → SubmitOutcome
  submitCtxDone : Nat → Bool
  details : Nat → Option TxDetail
  waitCancel : Nat → Bool
  preludeOk : Bool
  buildOpOk : Bool
  encodeAddress : String → Option Unit

/-- `BuildAndSubmit` from `tx.go`, as seen by `program.go`: the
pre-submission phase may fail; otherwise the result is `submitWithRetry`'s. -/
def buildAndSubmit (env : ProgramCallEnv) : Except String TransactionResult :=
  if env.preludeOk then
    match (submitWithRetry env.retry env.submit env.submitCtxDone).result with
    | .ok r => .ok r
    | .err _ => .error "failed to submit transaction"
  else .error "failed to get account details"

/-- The shared submit-then-wait tail of `LockProgramFunds`, `SinglePayout`
and `BatchPayout` (`program.go`): on submission success the 60-second
confirmation wait runs; a confirmation failure is only logged and the
pending result is returned with a nil error. -/
def submitAndWait (env : ProgramCallEnv) : Except String TransactionResult :=
  match buildAndSubmit env with
  | .error _ => .error "failed to submit transaction"
  | .ok r =>
      match (waitForConfirmation env.waitCancel env.details r.hash
          confirmTimeoutNs).2 with
      | .confirmed c => .ok c
      | _ => .ok r

/-- `LockProgramFunds` from `program.go`. -/
def LockProgramFunds (env : ProgramCallEnv) (contractAddress : String)
    (_amount : Int) : Except String TransactionResult :=
  match EncodeContractAddress contractAddress with
  | .error _ => .error "invalid contract address"
  | .ok _ =>
      if env.buildOpOk then submitAndWait env
      else .error "failed to build operation"

/-- `SinglePayout` from `program.go`. -/
def SinglePayout (env : ProgramCallEnv) (contractAddress recipient : String)
    (_amount : Int) : Except String TransactionResult :=
  match EncodeContractAddress contractAddress with
  | .error _ => .error "invalid contract address"
  | .ok _ =>
      match env.encodeAddress recipient with
      | none => .error "failed to encode recipient address"
      | some _ =>
          if env.buildOpOk then submitAndWait env
          else .error "failed to build operation"

/-- `BatchPayout` from `program.go`: the empty-batch check precedes
everything; each recipient address must encode. -/
def BatchPayout (env : ProgramCallEnv) (contractAddress : String)
    (payouts : List (String × Int)) : Except String TransactionResult :=
  if payouts.isEmpty then .error "payouts list cannot be empty"
  else
    match EncodeContractAddress contractAddress with
    | .error _ => .error "invalid contract address"
    | .ok _ =>
        if payouts.all (fun p => (env.encodeAddress p.1).isSome) then
          if env.buildOpOk then submitAndWait env
          else .error "failed to build operation"
        else .error "failed to encode recipient"

theorem submitStep_ok_status (cfg : RetryConfig) (submit : Nat → SubmitOutcome)
    (ctxDone : Nat → Bool) :
    ∀ fuel attempt delay lastErr r,
      (submitStep cfg submit ctxDone fuel attempt delay lastErr).result = .ok r →
      r.status = "pending" := by
  intro fuel
  induction fuel with
  | zero => intro attempt delay lastErr r h; simp [submitStep] at h
  | succ fuel ih =>
      intro attempt delay lastErr r h
      rw [submitStep] at h
      by_cases ha : attempt = 0
      · rw [if_pos ha] at h
        dsimp only at h
        cases hs : submit attempt with
        | success hh ll =>
            rw [hs] at h
            dsimp only at h
            injection h with h1
            rw [← h1]
        | horizonError code =>
            rw [hs] at h
            dsimp only at h
            by_cases hf : isNonRetryableError code = true
            · rw [if_pos hf] at h; exact absurd h (by simp)
            · rw [if_neg hf] at h
              exact ih (attempt + 1) delay (some (.horizonError code)) r h
        | otherError m =>
            rw [hs] at h
            dsimp only at h
            exact ih (attempt + 1) delay (some (.otherError m)) r h
      · rw [if_neg ha] at h
        by_cases hcd : ctxDone attempt = true
        · rw [if_pos hcd] at h; exact absurd h (by simp)
        · rw [if_neg hcd] at h
          dsimp only at h
          cases hs : submit attempt with
          | success hh ll =>
              rw [hs] at h
              dsimp only at h
              injection h with h1
              rw [← h1]
          | horizonError code =>
              rw [hs] at h
              dsimp only at h
              by_cases hf : isNonRetryableError code = true
              · rw [if_pos hf] at h; exact absurd h (by simp)
              · rw [if_neg hf] at h
                exact ih (attempt + 1) _ (some (.horizonError code)) r h
          | otherError m =>
              rw [hs] at h
              dsimp only at h
              exact ih (attempt + 1) _ (some (.otherError m)) r h

theorem submitWithRetry_ok_status (cfg : RetryConfig)
    (submit : Nat → SubmitOutcome) (ctxDone : Nat → Bool) (r : TransactionResult)
    (h : (submitWithRetry cfg submit ctxDone).result = .ok r) :
    r.status = "pending" :=
  submitStep_ok_status cfg submit ctxDone _ 0 cfg.initialDelay none r h

theorem submitAndWait_ok (env : ProgramCallEnv) (r : TransactionResult)
    (hpre : env.preludeOk = true)
    (hsub : (submitWithRetry env.retry env.submit env.submitCtxDone).result = .ok r)
    (hwait : (waitForConfirmation env.waitCancel env.details r.hash
        confirmTimeoutNs).2 = .cancelled ∨
      (waitForConfirmation env.waitCancel env.details r.hash
        confirmTimeoutNs).2 = .timedOut r.hash) :
    submitAndWait env = .ok r := by
  unfold submitAndWait buildAndSubmit
  rw [hpre, if_pos rfl, hsub]
  dsimp only
  rcases hwait with hw | hw <;> rw [hw]

/-- C9: for `LockProgramFunds`, `SinglePayout` and `BatchPayout`, whenever
the transaction submission succeeds but the subsequent 60-second
`WaitForConfirmation` fails (by cancellation or timeout — the only failures
it can produce, since lookup errors merely continue the polling), the
operation still returns the pending `TransactionResult` with a nil error. -/
theorem C9_confirmation_failure_swallowed (env : ProgramCallEnv)
    (contractAddress recipient : String) (amount : Int)
    (payouts : List (String × Int)) (r : TransactionResult)
    (henc : (EncodeContractAddress contractAddress).toOption.isSome = true)
    (hpre : env.preludeOk = true)
    (hop : env.buildOpOk = true)
    (hrec : (env.encodeAddress recipient).isSome = true)
    (hrecs : payouts.all (fun p => (env.encodeAddress p.1).isSome) = true)
    (hne : payouts.isEmpty = false)
    (hsub : (submitWithRetry env.retry env.submit env.submitCtxDone).result = .ok r)
    (hwait : (waitForConfirmation env.waitCancel env.details r.hash
        confirmTimeoutNs).2 = .cancelled ∨
      (waitForConfirmation env.waitCancel env.details r.hash
        confirmTimeoutNs).2 = .timedOut r.hash) :
    LockProgramFunds env contractAddress amount = .ok r ∧
    SinglePayout env contractAddress recipient amount = .ok r ∧
    BatchPayout env contractAddress payouts = .ok r ∧
    r.status = "pending" := by
  have hsw := submitAndWait_ok env r hpre hsub hwait
  obtain ⟨bs, hbs⟩ : ∃ bs, EncodeContractAddress contractAddress = .ok bs := by
    cases he : EncodeContractAddress contractAddress with
    | ok bs => exact ⟨bs, rfl⟩
    | error e => rw [he] at henc; exact absurd henc (by simp [Except.toOption])
  obtain ⟨u, hu⟩ : ∃ u, env.encodeAddress recipient = some u := by
    cases hr : env.encodeAddress recipient with
    | some u => exact ⟨u, rfl⟩
    | none => rw [hr] at hrec; exact absurd hrec (by simp)
  refine ⟨?_, ?_, ?_, ?_⟩
  · unfold LockProgramFunds
    rw [hbs]
    dsimp only
    rw [hop, if_pos rfl]
    exact hsw
  · unfold SinglePayout
    rw [hbs]
    dsimp only
    rw [hu]
    dsimp only
    rw [hop, if_pos rfl]
    exact hsw
  · unfold BatchPayout
    rw [hne]
    simp only [Bool.false_eq_true, if_false]
    rw [hbs]
    dsimp only
    rw [hrecs, if_pos rfl, hop, if_pos rfl]
    exact hsw
  · exact submitWithRetry_ok_status env.retry env.submit env.submitCtxDone r hsub

set_option maxRecDepth 8000 in
/-- Witness for `C9_confirmation_failure_swallowed`: a submission that
succeeds immediately and a confirmation wait that times out; all three
operations return the pending result without an error. -/
theorem C9_confirmation_failure_swallowed_witness :
    LockProgramFunds
        ⟨DefaultRetryConfig, fun _ => .success "h" 9, fun _ => false,
         fun _ => none, fun _ => false, true, true, fun _ => some ()⟩
        "0000000000000000000000000000000000000000000000000000000000000000" 5 =
      .ok ⟨"h", 9, "pending"⟩ ∧
    SinglePayout
        ⟨DefaultRetryConfig, fun _ => .success "h" 9, fun _ => false,
         fun _ => none, fun _ => false, true, true, fun _ => some ()⟩
        "0000000000000000000000000000000000000000000000000000000000000000" "r" 5 =
      .ok ⟨"h", 9, "pending"⟩ ∧
    BatchPayout
        ⟨DefaultRetryConfig, fun _ => .success "h" 9, fun _ => false,
         fun _ => none, fun _ => false, true, true, fun _ => some ()⟩
        "0000000000000000000000000000000000000000000000000000000000000000"
        [("r", 5)] =
      .ok ⟨"h", 9, "pending"⟩ ∧
    ("pending" : String) = "pending" := by
  have h := C9_confirmation_failure_swallowed
    ⟨DefaultRetryConfig, fun _ => .success "h" 9, fun _ => false,
     fun _ => none, fun _ => false, true, true, fun _ => some ()⟩
    "0000000000000000000000000000000000000000000000000000000000000000" "r" 5
    [("r", 5)] ⟨"h", 9, "pending"⟩
    (by decide) rfl rfl (by decide) (by decide) (by decide)
    (by decide) (Or.inr (by decide))
  exact ⟨h.1, h.2.1, h.2.2.1, rfl⟩
